import Mathlib

/-!
Shallow embedding of the PDF OCR batch pipeline: the dispatcher and device
workers of `chat_pdf.py`, and the page loop of
`langchain/document_loaders/parsers/pdf.py` (`Pix2TextParser.lazy_parse`).
Pure data is modelled directly; the queue operations, the worker loop and the
filesystem effects are modelled as explicit state passing over lists.
-/

namespace ChatPdf

/-- The call `queue.put(x)` on queue number `j` of the queue list `qs`:
append `x` at the tail of that queue. -/
def enqueue (qs : List (List α)) (j : Nat) (x : α) : List (List α) :=
  qs.set j (qs.getD j [] ++ [x])

/-- The dispatch loop
`for file_path, queue in zip(pdf_files, cycle(q_list)): queue.put(file_path)`:
`cycle(q_list)` pairs the item of index `i` with queue `i % N`, so each
enumerated pair `(i, x)` is enqueued on queue `i % N`. -/
def dispatchLoop (N : Nat) : List (Nat × α) → List (List α) → List (List α)
  | [], qs => qs
  | (i, x) :: rest, qs => dispatchLoop N rest (enqueue qs (i % N) x)

/-- Dispatch the work-item list `L` over `N` initially empty queues. -/
def dispatch (N : Nat) (L : List α) : List (List α) :=
  dispatchLoop N L.enum (List.replicate N [])

/-- The contents of worker `w`'s channel after dispatching `L` over `N` queues. -/
def channelOf (N : Nat) (L : List α) (w : Nat) : List α :=
  (dispatch N L).getD w []

/-- Python `devices.pop()`: remove and return the LAST element of the list. -/
def pyPop (l : List α) : Option α × List α :=
  (l.getLast?, l.dropLast)

/-- The spawn loop
`for i in range(procs): worker = Process(target=process_pdf, args=(devices.pop(), q)); worker.start()`:
the `i`-th spawned worker is bound to the device returned by the `i`-th
`devices.pop()` call. Returns the devices in spawn order; a `none` entry would
mean a pop from an empty list. -/
def spawnDevicesLoop : Nat → List α → List (Option α)
  | 0, _ => []
  | n + 1, devs => (pyPop devs).1 :: spawnDevicesLoop n ((pyPop devs).2)

/-- Devices bound to the spawned workers in spawn order, with
`procs = len(devices)` as in the source. -/
def spawnOrder (devs : List α) : List (Option α) :=
  spawnDevicesLoop devs.length devs

/-- Everything the dispatcher puts on worker `w`'s channel: first the
round-robin work items (`queue.put(file_path)`), then a single `None`
(`queue.put(None)`). `some` is a work item, `none` the shutdown sentinel. -/
def fullChannel (N : Nat) (L : List String) (w : Nat) : List (Option String) :=
  (channelOf N L w).map some ++ [none]

/-- The receive loop of `process_pdf`:
`loader.file_path = q.get()` then `if loader.file_path is None: return`.
Returns the messages the worker pulls off its channel, in order: every item up
to and including the first `none`, after which it returns and pulls nothing. -/
def pulledMsgs : List (Option String) → List (Option String)
  | [] => []
  | none :: _ => [none]
  | some x :: rest => some x :: pulledMsgs rest

/-- The chars after the last `'/'` of a char list. -/
def splitTail (cs : List Char) : List Char :=
  cs.foldl (fun acc c => if c = '/' then [] else acc ++ [c]) []

/-- Python `os.path.split(p)[1]`: the part of the path after the last slash. -/
def baseName (p : String) : String :=
  String.mk (splitTail p.data)

/-- The accumulation in `process_pdf`:
`s = ''` then `for doc in documents: s += doc.page_content; s += '\n\n'`. -/
def concatPages (segs : List String) : String :=
  segs.foldl (fun s c => s ++ c ++ "\n\n") ""

/-- Spec-side form of the artifact content:
`s1 ++ "\n\n" ++ ... ++ sk ++ "\n\n"`. -/
def sepConcat : List String → String
  | [] => ""
  | s :: rest => s ++ "\n\n" ++ sepConcat rest

/-- The result artifact `process_pdf` writes for one work item: the file
`os.path.join("ocr_results", os.path.split(path)[1] + '.json')` holding the
JSON encoding of the concatenated page contents. The artifact is modelled at
the decoded level: `json.dump` of a Python `str` followed by a JSON decode
gives back the same string, so the pair is (file name, decoded content). -/
def artifactFor (path : String) (segs : List String) : String × String :=
  ("ocr_results/" ++ (baseName path ++ ".json"), concatPages segs)

/-- Python `f.endswith(suf)`: `suf` is a suffix of `f`. -/
def pyEndsWith (f suf : String) : Bool :=
  decide (suf.data <:+ f.data)

/-- The selection in `__main__` with `pdf_directory = "/pdfs/"`:
`pdf_files = [os.path.join(pdf_directory, f) for f in os.listdir(pdf_directory) if f.endswith('.pdf')]`
then
`pdf_files = [f for f in pdf_files if not os.path.exists(os.path.join("ocr_results", os.path.split(f)[1] + '.json'))]`.
`dirFiles` are the names `os.listdir` returns, `artifacts` the file names
present in the `ocr_results` directory. -/
def eligiblePdfs (dirFiles artifacts : List String) : List String :=
  ((dirFiles.filter (fun f => pyEndsWith f ".pdf")).map (fun f => "/pdfs/" ++ f)).filter
    (fun p => !(artifacts.contains (baseName p ++ ".json")))

/-- Outcome of one worker run: the paths on which the extraction strategy was
invoked (`loader.load()`), the artifacts written, and the uncaught failure the
worker died with, if any. -/
structure WorkerOutcome (ε : Type) where
  calls : List String
  artifacts : List (String × String)
  failure : Option ε
  deriving Repr, DecidableEq

/-- The `process_pdf` loop over the worker's assigned items, the extraction
strategy `loader.load()` modelled as the fallible function `extract`. No
`try/except` surrounds the body, so a raised failure ends the run at the
failing item: nothing later is pulled, and the failing item writes no
artifact, because the `open`/`json.dump` block runs after `loader.load()`. -/
def workerRun (extract : String → Except ε (List String)) :
    List String → WorkerOutcome ε
  | [] => ⟨[], [], none⟩
  | f :: rest =>
    match extract f with
    | Except.error e => ⟨[f], [], some e⟩
    | Except.ok segs =>
        let o := workerRun extract rest
        ⟨f :: o.calls, artifactFor f segs :: o.artifacts, o.failure⟩

/-- A concrete extraction strategy used as the C6 witness: raises on
`/pdfs/bad.pdf`, succeeds elsewhere. -/
def extractW (f : String) : Except Unit (List String) :=
  if f = "/pdfs/bad.pdf" then Except.error () else Except.ok ["ok"]

/-- The pages `extractW` returns on success. -/
def segsW (_ : String) : List String := ["ok"]

/-- Events of one device worker process, in program order. -/
inductive WorkerEv
  | setVisibleDevices (d : String)
  | constructStrategy (d : String)
  | extractItem (f : String)
  | writeArtifact (n : String)
  deriving Repr, DecidableEq

/-- The receive loop of `process_pdf` as an event trace: each pulled work item
is extracted and its artifact written; the loop returns at the sentinel. -/
def loopEvents : List (Option String) → List WorkerEv
  | [] => []
  | none :: _ => []
  | some f :: rest =>
      WorkerEv.extractItem f
        :: WorkerEv.writeArtifact ("ocr_results/" ++ (baseName f ++ ".json"))
        :: loopEvents rest

/-- All of `process_pdf` as an event trace:
`os.environ['CUDA_VISIBLE_DEVICES'] = device` runs first, then
`loader = Pix2TextLoader(..., device=device)` is constructed once, then the
receive loop runs; the environment variable is never assigned again. -/
def workerEvents (device : String) (chan : List (Option String)) : List WorkerEv :=
  WorkerEv.setVisibleDevices device :: WorkerEv.constructStrategy device :: loopEvents chan

/-- The observable state `__main__` builds before joining the workers. -/
structure MainResult where
  spawned : List (Option String)
  channels : List (List (Option String))
  failed : Bool
  deriving Repr, DecidableEq

/-- The program `__main__` up to the `join` calls: `os.listdir(pdf_directory)` runs first
(`Except.error` models a missing/unreadable directory: the raise aborts the
program before anything else happens); only on success are the selection, the
spawn loop, the round-robin dispatch and the sentinels reached. -/
def mainRun (listing : Except String (List String)) (artifacts devices : List String) :
    MainResult :=
  match listing with
  | Except.error _ => ⟨[], [], true⟩
  | Except.ok dirFiles =>
      let pdfs := eligiblePdfs dirFiles artifacts
      ⟨spawnOrder devices,
       (List.range devices.length).map (fun w => fullChannel devices.length pdfs w),
       false⟩

/-- One recognized box of the `p2t` output: `out['type']` and `out['text']`. -/
structure Seg where
  type : String
  text : String
  deriving Repr, DecidableEq

/-- The classification loop of `Pix2TextParser.lazy_parse`: accumulate
`header_text`, `body_text`, `footer_text` over the boxes in recognizer order;
`'Footer'` is tested first, then `'Header'`, then `'Reference'` (skipped with
`continue`), anything else goes to the body. The triple is
(header_text, body_text, footer_text). -/
def pageAccum (outs : List Seg) : String × String × String :=
  outs.foldl
    (fun acc out =>
      if out.type = "Footer" then (acc.1, acc.2.1, acc.2.2 ++ out.text)
      else if out.type = "Header" then (acc.1 ++ out.text, acc.2.1, acc.2.2)
      else if out.type = "Reference" then acc
      else (acc.1, acc.2.1 ++ out.text, acc.2.2))
    ("", "", "")

/-- The line `only_text = header_text + '\n\n' + body_text + '\n\n' + footer_text + '\n\n'`. -/
def onlyText (outs : List Seg) : String :=
  (pageAccum outs).1 ++ "\n\n" ++ (pageAccum outs).2.1 ++ "\n\n"
    ++ (pageAccum outs).2.2 ++ "\n\n"

/-- Concatenation of the texts of a box list, in list order. -/
def catTexts : List Seg → String
  | [] => ""
  | o :: rest => o.text ++ catTexts rest

/-- A box the loop treats as header. -/
def isHeader (o : Seg) : Bool := o.type == "Header"

/-- A box the loop treats as footer. -/
def isFooter (o : Seg) : Bool := o.type == "Footer"

/-- A box the loop treats as body: neither header, footer nor reference. -/
def isBody (o : Seg) : Bool :=
  !(o.type == "Header") && !(o.type == "Footer") && !(o.type == "Reference")

/-- The temporary page image `pdf_name + '_page_' + str(idx) + '.png'`. -/
def pngName (pdfName : String) (idx : Nat) : String :=
  pdfName ++ "_page_" ++ toString idx ++ ".png"

/-- Filesystem-visible steps of the page loop of `Pix2TextParser.lazy_parse`. -/
inductive FsOp
  | save (name : String)
  | remove (name : String)
  | yieldDoc (content : String) (idx : Nat)
  deriving Repr, DecidableEq

/-- One iteration of `for idx, page in enumerate(doc)`: render and save the
page image, recognize it into `outs`, build `only_text`, `os.remove` the
image, then yield the `Document` (whose metadata page number is `idx + 1`). -/
def pageOps (pdfName : String) (idx : Nat) (outs : List Seg) : List FsOp :=
  [FsOp.save (pngName pdfName idx), FsOp.remove (pngName pdfName idx),
   FsOp.yieldDoc (onlyText outs) idx]

/-- The page loop from page index `i` on, one box list per remaining page. -/
def parseOpsFrom (pdfName : String) : Nat → List (List Seg) → List FsOp
  | _, [] => []
  | i, outs :: rest => pageOps pdfName i outs ++ parseOpsFrom pdfName (i + 1) rest

/-- The whole page loop: `enumerate` starts at index 0. -/
def parseOps (pdfName : String) (pages : List (List Seg)) : List FsOp :=
  parseOpsFrom pdfName 0 pages

/-- Run the filesystem steps over the set of present file names: `save`
creates (or overwrites), `remove` deletes, yielding touches nothing. -/
def applyOps (ops : List FsOp) (fs : List String) : List String :=
  ops.foldl
    (fun fs op =>
      match op with
      | FsOp.save n => if fs.contains n then fs else fs ++ [n]
      | FsOp.remove n => fs.filter (fun m => m != n)
      | FsOp.yieldDoc _ _ => fs)
    fs

/-- The page indices yielded along a run, each with the file-name set in force
at the moment it is yielded. -/
def runYields : List FsOp → List String → List (Nat × List String)
  | [], _ => []
  | FsOp.save n :: rest, fs => runYields rest (if fs.contains n then fs else fs ++ [n])
  | FsOp.remove n :: rest, fs => runYields rest (fs.filter (fun m => m != n))
  | FsOp.yieldDoc _ i :: rest, fs => (i, fs) :: runYields rest fs

-- End of definitions; theorems follow.

theorem getD_set_self (l : List α) (j : Nat) (v d : α) (h : j < l.length) :
    (l.set j v).getD j d = v := by
  simp [List.getD, List.getElem?_set_self', List.getElem?_eq_getElem h]

theorem getD_set_other (l : List α) (j w : Nat) (v d : α) (h : w ≠ j) :
    (l.set j v).getD w d = l.getD w d := by
  simp [List.getD, List.getElem?_set_ne (fun he => h he.symm)]

theorem length_enqueue (qs : List (List α)) (j : Nat) (x : α) :
    (enqueue qs j x).length = qs.length := by
  simp [enqueue]

theorem length_dispatchLoop (N : Nat) (ps : List (Nat × α)) (qs : List (List α)) :
    (dispatchLoop N ps qs).length = qs.length := by
  induction ps generalizing qs with
  | nil => rfl
  | cons p rest ih =>
      obtain ⟨i, x⟩ := p
      simpa [dispatchLoop, length_enqueue] using ih (enqueue qs (i % N) x)

theorem dispatchLoop_getD (N : Nat) (ps : List (Nat × α)) (qs : List (List α))
    (hN : qs.length = N) (w : Nat) (hw : w < N) :
    (dispatchLoop N ps qs).getD w [] =
      qs.getD w [] ++ (ps.filter (fun p => p.1 % N = w)).map Prod.snd := by
  induction ps generalizing qs with
  | nil => simp [dispatchLoop]
  | cons p rest ih =>
      obtain ⟨i, x⟩ := p
      have hiN : i % N < N := Nat.mod_lt _ (Nat.lt_of_le_of_lt (Nat.zero_le w) hw)
      have hlen : (enqueue qs (i % N) x).length = N := by
        simpa [length_enqueue] using hN
      by_cases hwi : i % N = w
      · subst hwi
        have hset : (enqueue qs (i % N) x).getD (i % N) [] = qs.getD (i % N) [] ++ [x] := by
          apply getD_set_self
          omega
        rw [dispatchLoop, ih (enqueue qs (i % N) x) hlen, hset]
        simp [List.filter_cons]
      · have hset : (enqueue qs (i % N) x).getD w [] = qs.getD w [] := by
          apply getD_set_other
          exact fun he => hwi he.symm
        rw [dispatchLoop, ih (enqueue qs (i % N) x) hlen, hset]
        simp [List.filter_cons, hwi]

theorem channelOf_eq_filter (N : Nat) (L : List α) (w : Nat) (hw : w < N) :
    channelOf N L w = (L.enum.filter (fun p => p.1 % N = w)).map Prod.snd := by
  have h := dispatchLoop_getD N L.enum (List.replicate N ([] : List α))
    (by simp) w hw
  have hrep : (List.replicate N ([] : List α)).getD w [] = [] := by
    simp [List.getD]
  simpa [channelOf, dispatch, hrep] using h

theorem channelOf_sublist (N : Nat) (L : List α) (w : Nat) (hw : w < N) :
    (channelOf N L w).Sublist L := by
  rw [channelOf_eq_filter N L w hw]
  have h1 : (L.enum.filter (fun p => p.1 % N = w)).Sublist L.enum :=
    List.filter_sublist L.enum
  have h2 := h1.map Prod.snd
  simpa [List.enum_map_snd] using h2

theorem sum_countP_key (l : List β) (key : β → Nat) (q : β → Bool) (N : Nat)
    (h : ∀ b ∈ l, key b < N) :
    (∑ w ∈ Finset.range N, l.countP (fun b => q b && decide (key b = w))) = l.countP q := by
  induction l with
  | nil => simp
  | cons a t ih =>
      have ht : ∀ b ∈ t, key b < N := fun b hb => h b (List.mem_cons_of_mem a hb)
      have ha : key a < N := h a (List.mem_cons_self a t)
      by_cases hq : q a
      · have hterm : ∀ w, (a :: t).countP (fun b => q b && decide (key b = w)) =
            t.countP (fun b => q b && decide (key b = w)) + if key a = w then 1 else 0 := by
          intro w
          by_cases hw : key a = w
          · simp [List.countP_cons, hq, hw]
          · simp [List.countP_cons, hq, hw]
        calc (∑ w ∈ Finset.range N, (a :: t).countP (fun b => q b && decide (key b = w)))
            = (∑ w ∈ Finset.range N, (t.countP (fun b => q b && decide (key b = w)) +
                if key a = w then 1 else 0)) := Finset.sum_congr rfl (fun w _ => hterm w)
          _ = (∑ w ∈ Finset.range N, t.countP (fun b => q b && decide (key b = w))) +
                (∑ w ∈ Finset.range N, if key a = w then 1 else 0) := Finset.sum_add_distrib
          _ = t.countP q + 1 := by
                rw [ih ht, Finset.sum_ite_eq (Finset.range N) (key a) (fun _ => 1),
                  if_pos (Finset.mem_range.mpr ha)]
          _ = (a :: t).countP q := by simp [List.countP_cons, hq]
      · have hterm : ∀ w, (a :: t).countP (fun b => q b && decide (key b = w)) =
            t.countP (fun b => q b && decide (key b = w)) := by
          intro w
          simp [List.countP_cons, hq]
        calc (∑ w ∈ Finset.range N, (a :: t).countP (fun b => q b && decide (key b = w)))
            = (∑ w ∈ Finset.range N, t.countP (fun b => q b && decide (key b = w))) :=
              Finset.sum_congr rfl (fun w _ => hterm w)
          _ = t.countP q := ih ht
          _ = (a :: t).countP q := by simp [List.countP_cons, hq]

theorem count_channelOf (L : List String) (N : Nat) (hN : 1 ≤ N) (x : String) :
    (∑ w ∈ Finset.range N, (channelOf N L w).count x) = L.count x := by
  have hkey : ∀ p ∈ L.enum, p.1 % N < N := fun p _ => Nat.mod_lt _ hN
  have hstep : ∀ w ∈ Finset.range N, (channelOf N L w).count x =
      L.enum.countP (fun p => (p.2 == x) && decide (p.1 % N = w)) := by
    intro w hw
    rw [channelOf_eq_filter N L w (Finset.mem_range.mp hw)]
    rw [List.count_eq_countP, List.countP_map, List.countP_filter]
    rfl
  rw [Finset.sum_congr rfl hstep, sum_countP_key L.enum (fun p => p.1 % N) _ N hkey]
  have : L.enum.countP (fun p => p.2 == x) = (L.enum.map Prod.snd).countP (fun b => b == x) := by
    rw [List.countP_map]
    rfl
  rw [this, List.enum_map_snd, List.count_eq_countP]

theorem get_mem_channelOf (L : List String) (N : Nat) (hN : 1 ≤ N)
    (i : Nat) (hi : i < L.length) :
    L.get ⟨i, hi⟩ ∈ channelOf N L (i % N) := by
  rw [channelOf_eq_filter N L (i % N) (Nat.mod_lt _ hN)]
  have hmem : (i, L.get ⟨i, hi⟩) ∈ L.enum := by
    rw [List.mk_mem_enum_iff_getElem?]
    simp [List.getElem?_eq_getElem hi]
  have hfil : (i, L.get ⟨i, hi⟩) ∈ L.enum.filter (fun p => p.1 % N = (i % N)) := by
    rw [List.mem_filter]
    exact ⟨hmem, by simp⟩
  exact List.mem_map.mpr ⟨(i, L.get ⟨i, hi⟩), hfil, rfl⟩

/-- C1: round-robin dispatch over `N ≥ 1` channels sends the item of index `i`
to channel `i mod N`; each channel is the index-order subsequence of `L` at the
indices congruent to its number, the item at index `i` is on channel `i mod N`,
the channels together hold every occurrence of every item of `L` exactly once
(counts over all channels add up to the count in `L`), and each channel keeps
the relative order of `L`. -/
theorem dispatch_partition (L : List String) (N : Nat) (hN : 1 ≤ N) :
    (∀ w, w < N → channelOf N L w = (L.enum.filter (fun p => p.1 % N = w)).map Prod.snd)
    ∧ (∀ i, (hi : i < L.length) → L.get ⟨i, hi⟩ ∈ channelOf N L (i % N))
    ∧ (∀ x : String, (∑ w ∈ Finset.range N, (channelOf N L w).count x) = L.count x)
    ∧ (∀ w, w < N → (channelOf N L w).Sublist L) :=
  ⟨fun w hw => channelOf_eq_filter N L w hw,
   fun i hi => get_mem_channelOf L N hN i hi,
   fun x => count_channelOf L N hN x,
   fun w hw => channelOf_sublist N L w hw⟩

/-- Witness for C1 at `L = [a, b, c]`, `N = 2`: channel 0 gets the items of
index 0 and 2, in order. -/
theorem dispatch_partition_witness :
    1 ≤ 2 ∧ channelOf 2 ["a", "b", "c"] 0 = ["a", "c"] :=
  ⟨by decide,
   ((dispatch_partition ["a", "b", "c"] 2 (by decide)).1 0 (by decide)).trans (by decide)⟩

theorem spawnOrder_eq_reverse (devs : List α) :
    spawnOrder devs = devs.reverse.map some := by
  induction devs using List.reverseRecOn with
  | nil => rfl
  | append_singleton init a ih =>
      have hlen : (init ++ [a]).length = init.length + 1 := by simp
      rw [spawnOrder, hlen, spawnDevicesLoop]
      have hpop1 : (pyPop (init ++ [a])).1 = some a := by simp [pyPop]
      have hpop2 : (pyPop (init ++ [a])).2 = init := by simp [pyPop]
      rw [hpop1, hpop2]
      rw [show spawnDevicesLoop init.length init = spawnOrder init from rfl, ih]
      simp

/-- C2 is false as stated: the spawn loop binds devices with `devices.pop()`,
which removes from the END of the list, so with device list `["0", "1"]` the
first worker spawned is bound to device `"1"`, not `"0"`. -/
theorem spawn_list_order_counterexample :
    ¬ spawnOrder ["0", "1"] = ["0", "1"].map some := by decide

/-- C2 (amended): the dispatcher spawns exactly `N = len(devices)` workers, one
device per worker, and the devices are consumed in REVERSE list order: the
`i`-th worker spawned is bound to the `(N - 1 - i)`-th device identifier. -/
theorem spawn_reverse_order (devs : List String) :
    (spawnOrder devs).length = devs.length
    ∧ spawnOrder devs = devs.reverse.map some
    ∧ (∀ i, i < devs.length →
        (spawnOrder devs).getD i none = some (devs.getD (devs.length - 1 - i) "")) := by
  refine ⟨?_, spawnOrder_eq_reverse devs, ?_⟩
  · rw [spawnOrder_eq_reverse devs]
    simp
  · intro i hi
    rw [spawnOrder_eq_reverse devs]
    have hrev : i < devs.reverse.length := by simpa using hi
    have hlt : devs.length - 1 - i < devs.length := by omega
    simp only [List.getD, List.get?_eq_getElem?, List.getElem?_map]
    rw [List.getElem?_eq_getElem hrev, List.getElem_reverse,
      List.getElem?_eq_getElem hlt]
    simp

/-- Witness for the amended C2 at `devs = ["0", "1"]`: worker 0 is bound to
device `"1"`. -/
theorem spawn_reverse_order_witness :
    (0 : Nat) < 2 ∧ (spawnOrder ["0", "1"]).getD 0 none = some "1" :=
  ⟨by decide, ((spawn_reverse_order ["0", "1"]).2.2 0 (by decide)).trans (by decide)⟩

theorem pulledMsgs_until_sentinel (items : List String) (rest : List (Option String)) :
    pulledMsgs (items.map some ++ none :: rest) = items.map some ++ [none] := by
  induction items with
  | nil => rfl
  | cons x t ih => simpa [pulledMsgs] using ih

/-- C3: the dispatcher enqueues exactly one shutdown sentinel per channel, after
all work items of that channel; the worker pulls every work item, then the
sentinel, which is the last message it consumes, and it consumes nothing after
a sentinel even when further items sit on the channel. -/
theorem sentinel_termination (N : Nat) (L : List String) (w : Nat) :
    (fullChannel N L w).count none = 1
    ∧ (fullChannel N L w).getLast? = some none
    ∧ pulledMsgs (fullChannel N L w) = (channelOf N L w).map some ++ [none]
    ∧ (∀ (items : List String) (rest : List (Option String)),
        pulledMsgs (items.map some ++ none :: rest) = items.map some ++ [none]) := by
  refine ⟨?_, ?_, ?_, pulledMsgs_until_sentinel⟩
  · have hz : ((channelOf N L w).map some).count (none : Option String) = 0 := by
      rw [List.count_eq_zero]
      intro hmem
      obtain ⟨y, _, hy⟩ := List.mem_map.mp hmem
      exact Option.noConfusion hy
    simp [fullChannel, List.count_append, hz]
  · simp [fullChannel]
  · exact pulledMsgs_until_sentinel (channelOf N L w) []

theorem concatPages_go (segs : List String) (a : String) :
    segs.foldl (fun s c => s ++ c ++ "\n\n") a = a ++ sepConcat segs := by
  induction segs generalizing a with
  | nil => simp [sepConcat, String.append_empty]
  | cons s rest ih =>
      rw [List.foldl_cons, ih, sepConcat]
      simp [String.append_assoc]

/-- C4: for a work item `path` whose extraction returns the page segments
`segs = [s1, ..., sk]`, the worker writes one artifact named
`<base name of path>.json` in the `ocr_results` directory, whose JSON-decoded
content is `s1 ++ "\n\n" ++ ... ++ sk ++ "\n\n"`; for segments
`["Hello", "World"]` the decoded artifact is `"Hello\n\nWorld\n\n"`. -/
theorem artifact_roundtrip (path : String) (segs : List String) :
    (artifactFor path segs).1 = "ocr_results/" ++ (baseName path ++ ".json")
    ∧ (artifactFor path segs).2 = sepConcat segs
    ∧ (artifactFor "/pdfs/x.pdf" ["Hello", "World"]).2 = "Hello\n\nWorld\n\n" := by
  refine ⟨rfl, ?_, by decide⟩
  have h := concatPages_go segs ""
  simpa [artifactFor, concatPages] using h

theorem splitTail_no_slash (b : List Char) (acc : List Char) (h : ∀ c ∈ b, c ≠ '/') :
    b.foldl (fun acc c => if c = '/' then [] else acc ++ [c]) acc = acc ++ b := by
  induction b generalizing acc with
  | nil => simp
  | cons c rest ih =>
      have hc : c ≠ '/' := h c (List.mem_cons_self c rest)
      have hrest : ∀ d ∈ rest, d ≠ '/' := fun d hd => h d (List.mem_cons_of_mem c hd)
      rw [List.foldl_cons, if_neg hc, ih (acc ++ [c]) hrest]
      simp

theorem baseName_under_pdfs (f : String) (h : ∀ c ∈ f.data, c ≠ '/') :
    baseName ("/pdfs/" ++ f) = f := by
  obtain ⟨cs⟩ := f
  have hdata : (("/pdfs/" : String) ++ ⟨cs⟩).data = "/pdfs/".data ++ cs :=
    String.data_append _ _
  rw [baseName, hdata]
  rw [splitTail, List.foldl_append]
  have hpre : "/pdfs/".data.foldl (fun acc c => if c = '/' then [] else acc ++ [c]) [] = [] := by
    decide
  rw [hpre, splitTail_no_slash cs [] h]
  rfl

/-- C5: a file of the input directory is dispatched iff its name ends in
`.pdf` and no artifact `<file name>.json` is present in `ocr_results`; the
selected paths are the eligible names joined under `/pdfs/`, in directory
order, and on the spec's re-run example with inputs `a.pdf, b.pdf` and an
existing artifact `a.pdf.json`, only `b.pdf` is dispatched. -/
theorem eligible_selection (dirFiles artifacts : List String)
    (h : ∀ f ∈ dirFiles, ∀ c ∈ f.data, c ≠ '/') :
    eligiblePdfs dirFiles artifacts =
      (dirFiles.filter (fun f => pyEndsWith f ".pdf"
          && !(artifacts.contains (f ++ ".json")))).map (fun f => "/pdfs/" ++ f)
    ∧ eligiblePdfs ["a.pdf", "b.pdf"] ["a.pdf.json"] = ["/pdfs/b.pdf"] := by
  constructor
  · rw [eligiblePdfs, List.filter_map]
    rw [List.filter_filter]
    apply congrArg (List.map (fun f => "/pdfs/" ++ f))
    apply List.filter_congr
    intro f hf
    have hb : baseName ("/pdfs/" ++ f) = f := baseName_under_pdfs f (h f hf)
    simp only [Function.comp, hb]
    exact Bool.and_comm _ _
  · decide

/-- Witness for C5 at the spec's re-run example. -/
theorem eligible_selection_witness :
    (∀ f ∈ ["a.pdf", "b.pdf"], ∀ c ∈ f.data, c ≠ '/')
    ∧ eligiblePdfs ["a.pdf", "b.pdf"] ["a.pdf.json"] = ["/pdfs/b.pdf"] :=
  ⟨by decide, (eligible_selection ["a.pdf", "b.pdf"] ["a.pdf.json"] (by decide)).2⟩

/-- C6: a failure raised by the extraction strategy is not caught by the
worker: the run ends with that failure, the failing item is extracted exactly
once (no retry, and in this one-worker-per-channel design no redelivery), no
artifact at all is written for it, and the items queued behind it are never
extracted and never produce artifacts. -/
theorem worker_failure (extract : String → Except ε (List String))
    (segsOf : String → List String) (pre post : List String) (f : String) (e : ε)
    (hok : ∀ g ∈ pre, extract g = Except.ok (segsOf g))
    (hf : extract f = Except.error e) :
    workerRun extract (pre ++ f :: post) =
      ⟨pre ++ [f], pre.map (fun g => artifactFor g (segsOf g)), some e⟩ := by
  induction pre with
  | nil => simp [workerRun, hf]
  | cons g t ih =>
      have hg : extract g = Except.ok (segsOf g) := hok g (List.mem_cons_self g t)
      have ht : ∀ x ∈ t, extract x = Except.ok (segsOf x) :=
        fun x hx => hok x (List.mem_cons_of_mem g hx)
      simp [workerRun, hg, ih ht]

/-- Witness for C6: one good item, then the failing one, then an abandoned one. -/
theorem worker_failure_witness :
    (∀ g ∈ ["/pdfs/good.pdf"], extractW g = Except.ok (segsW g))
    ∧ extractW "/pdfs/bad.pdf" = Except.error ()
    ∧ workerRun extractW (["/pdfs/good.pdf"] ++ "/pdfs/bad.pdf" :: ["/pdfs/late.pdf"]) =
        ⟨["/pdfs/good.pdf", "/pdfs/bad.pdf"],
         [artifactFor "/pdfs/good.pdf" (segsW "/pdfs/good.pdf")], some ()⟩ :=
  ⟨fun g hg => by rw [List.mem_singleton] at hg; subst hg; rfl,
   rfl,
   worker_failure extractW segsW ["/pdfs/good.pdf"] ["/pdfs/late.pdf"] "/pdfs/bad.pdf" ()
     (fun g hg => by rw [List.mem_singleton] at hg; subst hg; rfl) rfl⟩

theorem loopEvents_no_device_set (chan : List (Option String)) :
    ∀ e ∈ loopEvents chan, ∀ d, e ≠ WorkerEv.setVisibleDevices d := by
  induction chan with
  | nil => intro e he; simp [loopEvents] at he
  | cons c rest ih =>
      cases c with
      | none => intro e he; simp [loopEvents] at he
      | some f =>
          intro e he d
          rw [loopEvents] at he
          rcases List.mem_cons.mp he with h1 | he2
          · subst h1; intro hcontra; cases hcontra
          · rcases List.mem_cons.mp he2 with h2 | he3
            · subst h2; intro hcontra; cases hcontra
            · exact ih e he3 d

/-- C7: a worker's very first action is to restrict the visible compute
devices to its assigned identifier (`CUDA_VISIBLE_DEVICES`), before the
extraction strategy is constructed and before any item is extracted, and no
later event of the worker ever sets the device visibility again. -/
theorem device_binding_first (device : String) (chan : List (Option String)) :
    (workerEvents device chan).head? = some (WorkerEv.setVisibleDevices device)
    ∧ (workerEvents device chan).tail.head? = some (WorkerEv.constructStrategy device)
    ∧ (∀ e ∈ (workerEvents device chan).tail, ∀ d, e ≠ WorkerEv.setVisibleDevices d) := by
  refine ⟨rfl, rfl, ?_⟩
  intro e he d
  rw [workerEvents] at he
  rcases List.mem_cons.mp he with h1 | he2
  · subst h1; intro hcontra; cases hcontra
  · exact loopEvents_no_device_set chan e he2 d

/-- Witness for C7 on a one-item channel. -/
theorem device_binding_first_witness :
    (WorkerEv.writeArtifact "ocr_results/a.pdf.json"
        ∈ (workerEvents "0" [some "/pdfs/a.pdf", none]).tail)
    ∧ WorkerEv.writeArtifact "ocr_results/a.pdf.json" ≠ WorkerEv.setVisibleDevices "1" :=
  ⟨by decide,
   (device_binding_first "0" [some "/pdfs/a.pdf", none]).2.2 _ (by decide) "1"⟩

/-- C8: when enumerating the input directory raises, the program aborts with
no worker spawned, no channel created and no item enqueued; only a successful
listing reaches the spawn loop, which starts one worker per device. -/
theorem startup_abort (e : String) (artifacts devices : List String) :
    (mainRun (Except.error e) artifacts devices).failed = true
    ∧ (mainRun (Except.error e) artifacts devices).spawned = []
    ∧ (mainRun (Except.error e) artifacts devices).channels = []
    ∧ (∀ dirFiles, (mainRun (Except.ok dirFiles) artifacts devices).spawned.length
        = devices.length
      ∧ (mainRun (Except.ok dirFiles) artifacts devices).channels.length
        = devices.length) := by
  refine ⟨rfl, rfl, rfl, ?_⟩
  intro dirFiles
  constructor
  · show (spawnOrder devices).length = devices.length
    rw [spawnOrder_eq_reverse devices]
    simp
  · simp [mainRun]

theorem pageAccum_go (outs : List Seg) (h b f : String) :
    outs.foldl
      (fun acc out =>
        if out.type = "Footer" then (acc.1, acc.2.1, acc.2.2 ++ out.text)
        else if out.type = "Header" then (acc.1 ++ out.text, acc.2.1, acc.2.2)
        else if out.type = "Reference" then acc
        else (acc.1, acc.2.1 ++ out.text, acc.2.2))
      (h, b, f) =
    (h ++ catTexts (outs.filter isHeader),
     b ++ catTexts (outs.filter isBody),
     f ++ catTexts (outs.filter isFooter)) := by
  induction outs generalizing h b f with
  | nil => simp [catTexts, String.append_empty]
  | cons o rest ih =>
      rw [List.foldl_cons]
      by_cases hF : o.type = "Footer"
      · rw [if_pos hF, ih]
        have h1 : isHeader o = false := by simp [isHeader, hF]
        have h2 : isBody o = false := by simp [isBody, hF]
        have h3 : isFooter o = true := by simp [isFooter, hF]
        simp [List.filter_cons, h1, h2, h3, catTexts, String.append_assoc]
      · rw [if_neg hF]
        by_cases hH : o.type = "Header"
        · rw [if_pos hH, ih]
          have h1 : isHeader o = true := by simp [isHeader, hH]
          have h2 : isBody o = false := by simp [isBody, hH]
          have h3 : isFooter o = false := by simp [isFooter, hF]
          simp [List.filter_cons, h1, h2, h3, catTexts, String.append_assoc]
        · rw [if_neg hH]
          by_cases hR : o.type = "Reference"
          · rw [if_pos hR, ih]
            have h1 : isHeader o = false := by simp [isHeader, hH]
            have h2 : isBody o = false := by simp [isBody, hR]
            have h3 : isFooter o = false := by simp [isFooter, hF]
            simp [List.filter_cons, h1, h2, h3]
          · rw [if_neg hR, ih]
            have h1 : isHeader o = false := by simp [isHeader, hH]
            have h2 : isBody o = true := by simp [isBody, hH, hF, hR]
            have h3 : isFooter o = false := by simp [isFooter, hF]
            simp [List.filter_cons, h1, h2, h3, catTexts, String.append_assoc]

/-- C9: the page content yielded for a page whose recognizer returns `outs`
is `header ++ "\n\n" ++ body ++ "\n\n" ++ footer ++ "\n\n"`, where `header`
(resp. `body`, `footer`) concatenates, in recognizer order, the texts of the
`Header` boxes (resp. the boxes of no special type, resp. the `Footer` boxes),
and `Reference` boxes are dropped entirely — so all header text comes before
all body text, which comes before all footer text, whatever order the
recognizer returned the boxes in. -/
theorem page_grouping (outs : List Seg) :
    onlyText outs =
      catTexts (outs.filter isHeader) ++ "\n\n"
        ++ catTexts (outs.filter isBody) ++ "\n\n"
        ++ catTexts (outs.filter isFooter) ++ "\n\n" := by
  have h := pageAccum_go outs "" "" ""
  rw [onlyText, pageAccum, h]
  simp [String.empty_append]

theorem applyOps_append (ops1 ops2 : List FsOp) (fs : List String) :
    applyOps (ops1 ++ ops2) fs = applyOps ops2 (applyOps ops1 fs) :=
  List.foldl_append _ fs ops1 ops2

theorem applyOps_pageOps (pdfName : String) (idx : Nat) (outs : List Seg) (fs : List String) :
    applyOps (pageOps pdfName idx outs) fs = fs.filter (fun m => m != pngName pdfName idx) := by
  by_cases hc : pngName pdfName idx ∈ fs
  · simp [applyOps, pageOps, hc]
  · simp [applyOps, pageOps, hc, List.filter_append]

theorem applyOps_parseOpsFrom (pdfName : String) (pages : List (List Seg)) (i : Nat)
    (fs : List String) :
    applyOps (parseOpsFrom pdfName i pages) fs =
      fs.filter (fun m => (List.range' i pages.length).all (fun j => m != pngName pdfName j)) := by
  induction pages generalizing i fs with
  | nil => simp [parseOpsFrom, applyOps]
  | cons outs rest ih =>
      rw [parseOpsFrom, applyOps_append, applyOps_pageOps, ih]
      rw [List.filter_filter]
      apply List.filter_congr
      intro m _
      rw [List.length_cons, List.range'_succ, List.all_cons]
      exact Bool.and_comm _ _

theorem runYields_append (ops1 ops2 : List FsOp) (fs : List String) :
    runYields (ops1 ++ ops2) fs = runYields ops1 fs ++ runYields ops2 (applyOps ops1 fs) := by
  induction ops1 generalizing fs with
  | nil => simp [runYields, applyOps]
  | cons op rest ih => cases op <;> simp [runYields, applyOps, List.foldl_cons, ih]

theorem runYields_pageOps (pdfName : String) (idx : Nat) (outs : List Seg) (fs : List String) :
    runYields (pageOps pdfName idx outs) fs =
      [(idx, fs.filter (fun m => m != pngName pdfName idx))] := by
  by_cases hc : pngName pdfName idx ∈ fs
  · simp [runYields, pageOps, hc]
  · simp [runYields, pageOps, hc, List.filter_append]

theorem contains_filter_bne (fs : List String) (n : String) :
    (fs.filter (fun m => m != n)).contains n = false := by
  rw [Bool.eq_false_iff]
  intro hc
  have hmem : n ∈ fs.filter (fun m => m != n) := List.elem_iff.mp hc
  have hbne := (List.mem_filter.mp hmem).2
  simp at hbne

theorem runYields_no_png (pdfName : String) (pages : List (List Seg)) (i : Nat)
    (fs : List String) :
    ∀ p fsAt, (p, fsAt) ∈ runYields (parseOpsFrom pdfName i pages) fs →
      fsAt.contains (pngName pdfName p) = false := by
  induction pages generalizing i fs with
  | nil => intro p fsAt h; simp [parseOpsFrom, runYields] at h
  | cons outs rest ih =>
      intro p fsAt h
      rw [parseOpsFrom, runYields_append, runYields_pageOps] at h
      rcases List.mem_append.mp h with h1 | h2
      · have h1e := List.mem_singleton.mp h1
        have hp : p = i := congrArg Prod.fst h1e
        have hf : fsAt = fs.filter (fun m => m != pngName pdfName i) :=
          congrArg Prod.snd h1e
        subst hp
        subst hf
        exact contains_filter_bne fs _
      · exact ih (i + 1) _ p fsAt h2

/-- C10: for every page index `idx`, the temporary image
`<pdf name>_page_<idx>.png` is removed before the page's Document is yielded:
at each yield the image of the page being yielded is no longer present, and
after the whole parse the file set is the initial one minus all temporary page
images of the document — in particular no temporary page image remains. -/
theorem temp_images_cleaned (pdfName : String) (pages : List (List Seg)) (fs : List String) :
    applyOps (parseOps pdfName pages) fs =
      fs.filter (fun m => (List.range pages.length).all (fun j => m != pngName pdfName j))
    ∧ (∀ p fsAt, (p, fsAt) ∈ runYields (parseOps pdfName pages) fs →
        fsAt.contains (pngName pdfName p) = false) := by
  constructor
  · rw [parseOps, applyOps_parseOpsFrom, List.range_eq_range']
  · exact runYields_no_png pdfName pages 0 fs

/-- Witness for C10: a one-page document parsed on an empty file set; at the
yield of page 0 the page image is gone. -/
theorem temp_images_cleaned_witness :
    ((0, ([] : List String)) ∈ runYields (parseOps "doc" [[]]) [])
    ∧ ([] : List String).contains (pngName "doc" 0) = false :=
  ⟨by decide, (temp_images_cleaned "doc" [[]] []).2 0 [] (by decide)⟩

end ChatPdf
